import Mathlib

/-!
Shallow embedding of the streaming / quiz / flowchart core of the
`scaling-giggle` AI-tutor application (TypeScript), together with proofs
about the embedded operations.

Conventions used throughout:

* JavaScript strings that are processed character-by-character (the SSE
  wire protocol) are embedded as `List Char`; strings that are only
  stored or compared are embedded as `String`.
* JavaScript string falsiness (`if (s)`) is embedded as a test against
  the empty string / empty list, the only falsy string value.
* `JSON.parse` is a host primitive, not repository code; it is embedded
  as an abstract parameter (`parse`) returning `Option` values, `none`
  standing for a thrown `SyntaxError` or an absent field.
* `fetch` and the network are external collaborators; the embedding
  models the computation from the pre-request configuration checks on,
  and from the received bytes on.
-/

/-! ## Section 1: SSE streaming adapters (src/services/aiService.ts)

`streamOpenAICompatResponse` (lines 63-87) and the Google branch of
`AiService.generateStreamingResponse` (lines 139-154) share one loop
shape: accumulate decoded bytes in `buffer`, split on `'\n'`, keep the
final partial line in the buffer, and process every complete line that
starts with `"data: "`.  The OpenAI-compatible variant additionally
terminates on a line whose payload trims to `"[DONE]"`.
-/

/-- The SSE line marker `"data: "` checked by `line.startsWith("data: ")` (single quotes in the source). -/
def dataMarker : List Char := ['d', 'a', 't', 'a', ':', ' ']

/-- The `"[DONE]"` sentinel of the OpenAI-compatible protocol. -/
def doneMarker : List Char := ['[', 'D', 'O', 'N', 'E', ']']

/-- JavaScript `String.prototype.trim`: drop whitespace at both ends. -/
def jsTrim (l : List Char) : List Char :=
  ((l.dropWhile Char.isWhitespace).reverse.dropWhile Char.isWhitespace).reverse

/-- JavaScript `String.prototype.split('\n')`: split into segments, with an
empty segment for every boundary newline (`"a\n".split('\n') = ["a", ""]`). -/
def splitOnNl : List Char → List (List Char)
  | [] => [[]]
  | c :: cs =>
    match splitOnNl cs with
    | [] => [[]]
    | h :: t => if c = '\n' then [] :: h :: t else (c :: h) :: t

/-- Per-line behaviour of `streamOpenAICompatResponse` (aiService.ts 73-85):
`none` = the generator returns (a `data: [DONE]` line); `some none` = the
line yields nothing (no `data: ` marker, malformed JSON swallowed by the
`try`/`catch`, or a falsy `choices?.[0]?.delta?.content`); `some (some c)` =
the line yields fragment `c`.  `parse` abstracts
`JSON.parse` followed by the `choices?.[0]?.delta?.content` navigation
(`none` = `JSON.parse` threw). -/
def handleOpenAILine (parse : List Char → Option (List Char))
    (line : List Char) : Option (Option (List Char)) :=
  if line.take 6 = dataMarker then
    let data := line.drop 6
    if jsTrim data = doneMarker then none
    else
      match parse data with
      | none => some none
      | some chunk => if chunk = [] then some none else some (some chunk)
  else some none

/-- Per-line behaviour of the Google branch of `generateStreamingResponse`
(aiService.ts 145-153): same shape but with no `[DONE]` check; `parse`
abstracts `JSON.parse` followed by the
`candidates?.[0]?.content?.parts?.[0]?.text` navigation. -/
def handleGeminiLine (parse : List Char → Option (List Char))
    (line : List Char) : Option (Option (List Char)) :=
  if line.take 6 = dataMarker then
    match parse (line.drop 6) with
    | none => some none
    | some chunk => if chunk = [] then some none else some (some chunk)
  else some none

/-- The `for (const line of lines)` loop body over one batch of complete
lines; the `Bool` records whether the generator returned (`[DONE]`). -/
def runLines (h : List Char → Option (Option (List Char))) :
    List (List Char) → List (List Char) × Bool
  | [] => ([], false)
  | l :: rest =>
    match h l with
    | none => ([], true)
    | some none => runLines h rest
    | some (some c) =>
      let r := runLines h rest
      (c :: r.1, r.2)

/-- The `while (true) { reader.read() ... }` loop: each element of the
first argument is one decoded byte chunk; `buf` is the carried partial
line (`buffer = lines.pop() or empty`).  On end of stream (`done`) the
leftover buffer is discarded, exactly as in the source. -/
def runStream (h : List Char → Option (Option (List Char))) :
    List (List Char) → List Char → List (List Char)
  | [], _ => []
  | chunk :: rest, buf =>
    let parts := splitOnNl (buf ++ chunk)
    let r := runLines h parts.dropLast
    if r.2 then r.1 else r.1 ++ runStream h rest (parts.getLastD [])

/-- Fragment sequence produced by `streamOpenAICompatResponse` from a
list of decoded byte chunks. -/
def streamOpenAICompatFragments (parse : List Char → Option (List Char))
    (chunks : List (List Char)) : List (List Char) :=
  runStream (handleOpenAILine parse) chunks []

/-- Fragment sequence produced by the Google (Gemini-protocol) branch of
`generateStreamingResponse` from a list of decoded byte chunks. -/
def streamGeminiFragments (parse : List Char → Option (List Char))
    (chunks : List (List Char)) : List (List Char) :=
  runStream (handleGeminiLine parse) chunks []

/-- One newline-terminated SSE line carrying payload `p`. -/
def dataLineChunk (p : List Char) : List Char := dataMarker ++ p ++ ['\n']

/-! Supporting lemmas for the SSE adapters. -/

theorem splitOnNl_ne_nil (l : List Char) : splitOnNl l ≠ [] := by
  cases l with
  | nil => simp [splitOnNl]
  | cons c cs =>
    simp only [splitOnNl]
    cases h : splitOnNl cs with
    | nil => simp
    | cons hd t => simp only [h]; split <;> simp

theorem splitOnNl_append_nl (l r : List Char) (hl : '\n' ∉ l) :
    splitOnNl (l ++ '\n' :: r) = l :: splitOnNl r := by
  induction l with
  | nil =>
    simp only [List.nil_append, splitOnNl]
    cases h : splitOnNl r with
    | nil => exact absurd h (splitOnNl_ne_nil r)
    | cons hd t => simp
  | cons c cs ih =>
    have hc : c ≠ '\n' := by
      intro h; exact hl (h ▸ List.mem_cons_self c cs)
    have hcs : '\n' ∉ cs := fun h => hl (List.mem_cons_of_mem c h)
    simp only [List.cons_append, splitOnNl]
    rw [List.append_eq, ih hcs]
    simp [hc]

theorem dataMarker_take (p : List Char) : (dataMarker ++ p).take 6 = dataMarker := by
  have h : dataMarker.length = 6 := by decide
  rw [← h, List.take_left]

theorem dataMarker_drop (p : List Char) : (dataMarker ++ p).drop 6 = p := by
  have h : dataMarker.length = 6 := by decide
  rw [← h, List.drop_left]

theorem nl_not_mem_dataMarker : '\n' ∉ dataMarker := by decide

/-- Reduction of `runStream` on a single complete newline-terminated line. -/
theorem runStream_lineChunk (h : List Char → Option (Option (List Char)))
    (l : List Char) (rest : List (List Char)) (hnl : '\n' ∉ l) :
    runStream h ((l ++ ['\n']) :: rest) [] =
      match h l with
      | none => []
      | some none => runStream h rest []
      | some (some c) => c :: runStream h rest [] := by
  have hsplit : splitOnNl ([] ++ (l ++ ['\n'])) = [l, []] := by
    simpa using splitOnNl_append_nl l [] hnl
  simp only [runStream, hsplit]
  cases hh : h l with
  | none => simp [runLines, hh]
  | some o =>
    cases o with
    | none => simp [runLines, hh]
    | some c => simp [runLines, hh]

/-- Reduction of `runStream` on a list of lines each of which yields a fragment. -/
theorem runStream_yieldChunks (h : List Char → Option (Option (List Char)))
    (ds : List (List Char × List Char)) (rest : List (List Char))
    (hds : ∀ pd ∈ ds, '\n' ∉ pd.1 ∧ h pd.1 = some (some pd.2)) :
    runStream h (ds.map (fun pd => pd.1 ++ ['\n']) ++ rest) [] =
      ds.map Prod.snd ++ runStream h rest [] := by
  induction ds with
  | nil => simp
  | cons pd tl ih =>
    have hpd := hds pd (List.mem_cons_self pd tl)
    have htl : ∀ q ∈ tl, '\n' ∉ q.1 ∧ h q.1 = some (some q.2) :=
      fun q hq => hds q (List.mem_cons_of_mem pd hq)
    simp only [List.map_cons, List.cons_append]
    rw [runStream_lineChunk h pd.1 _ hpd.1, hpd.2, ih htl]

theorem handleOpenAILine_valid (parse : List Char → Option (List Char))
    (p c : List Char) (ht : jsTrim p ≠ doneMarker)
    (hp : parse p = some c) (hc : c ≠ []) :
    handleOpenAILine parse (dataMarker ++ p) = some (some c) := by
  simp [handleOpenAILine, dataMarker_take, dataMarker_drop, ht, hp, hc]

theorem handleOpenAILine_malformed (parse : List Char → Option (List Char))
    (p : List Char) (ht : jsTrim p ≠ doneMarker) (hp : parse p = none) :
    handleOpenAILine parse (dataMarker ++ p) = some none := by
  simp [handleOpenAILine, dataMarker_take, dataMarker_drop, ht, hp]

theorem handleOpenAILine_done (parse : List Char → Option (List Char)) :
    handleOpenAILine parse (dataMarker ++ doneMarker) = none := by
  have h : jsTrim doneMarker = doneMarker := by decide
  simp [handleOpenAILine, dataMarker_take, dataMarker_drop, h]

theorem handleGeminiLine_valid (parse : List Char → Option (List Char))
    (p c : List Char) (hp : parse p = some c) (hc : c ≠ []) :
    handleGeminiLine parse (dataMarker ++ p) = some (some c) := by
  simp [handleGeminiLine, dataMarker_take, dataMarker_drop, hp, hc]

theorem nl_not_mem_dataLine (p : List Char) (hp : '\n' ∉ p) :
    '\n' ∉ dataMarker ++ p := by
  intro h
  rcases List.mem_append.mp h with h | h
  · exact nl_not_mem_dataMarker h
  · exact hp h

/-- Every chunk carrying a full `data: `-prefixed line that the handler
maps to a yielded fragment contributes exactly that fragment. -/
theorem runStream_dataChunks (h : List Char → Option (Option (List Char)))
    (ds : List (List Char × List Char)) (rest : List (List Char))
    (hds : ∀ pd ∈ ds, '\n' ∉ pd.1 ∧ h (dataMarker ++ pd.1) = some (some pd.2)) :
    runStream h (ds.map (fun pd => dataLineChunk pd.1) ++ rest) [] =
      ds.map Prod.snd ++ runStream h rest [] := by
  have key := runStream_yieldChunks h
    (ds.map (fun pd => (dataMarker ++ pd.1, pd.2))) rest
    (by
      intro q hq
      rcases List.mem_map.mp hq with ⟨pd, hpd, rfl⟩
      exact ⟨nl_not_mem_dataLine pd.1 (hds pd hpd).1, (hds pd hpd).2⟩)
  have h1 : (ds.map (fun pd => (dataMarker ++ pd.1, pd.2))).map
      (fun pd => pd.1 ++ ['\n']) = ds.map (fun pd => dataLineChunk pd.1) := by
    simp [List.map_map, dataLineChunk, Function.comp]
  have h2 : (ds.map (fun pd => (dataMarker ++ pd.1, pd.2))).map Prod.snd =
      ds.map Prod.snd := by
    simp [List.map_map, Function.comp]
  rw [h1, h2] at key
  exact key

/-- A chunk whose line the handler skips contributes nothing. -/
theorem runStream_skipChunk (h : List Char → Option (Option (List Char)))
    (m : List Char) (rest : List (List Char)) (hm : '\n' ∉ m)
    (hh : h (dataMarker ++ m) = some none) :
    runStream h (dataLineChunk m :: rest) [] = runStream h rest [] := by
  have key := runStream_lineChunk h (dataMarker ++ m) rest (nl_not_mem_dataLine m hm)
  rw [hh] at key
  have he : dataLineChunk m = (dataMarker ++ m) ++ ['\n'] := by
    simp [dataLineChunk]
  rw [he]
  exact key

/-- A `data: [DONE]` chunk terminates the OpenAI-compatible stream. -/
theorem runStream_doneChunk (parse : List Char → Option (List Char))
    (extra : List (List Char)) :
    runStream (handleOpenAILine parse) (dataLineChunk doneMarker :: extra) [] = [] := by
  have hnl : '\n' ∉ doneMarker := by decide
  have key := runStream_lineChunk (handleOpenAILine parse) (dataMarker ++ doneMarker)
    extra (nl_not_mem_dataLine doneMarker hnl)
  rw [handleOpenAILine_done] at key
  have he : dataLineChunk doneMarker = (dataMarker ++ doneMarker) ++ ['\n'] := by
    simp [dataLineChunk]
  rw [he]
  exact key

/-- C5: for an SSE byte stream of N `data: ` lines with valid JSON deltas,
both streaming adapters yield exactly those deltas, in arrival order, as
the fragment sequence; for the SSE-OpenAI-like protocol a literal
`data: [DONE]` line terminates the stream (anything after it is ignored;
the Gemini-like stream simply ends with the transport).  Each pair in
`ds` is (raw line payload, delta it decodes to); the hypotheses say the
payload is a single line, is not the `[DONE]` sentinel, and decodes to a
non-empty delta under the respective vendor JSON navigation. -/
theorem sse_valid_deltas_yield_concatenation
    (parseO parseG : List Char → Option (List Char))
    (ds : List (List Char × List Char)) (extra : List (List Char))
    (hds : ∀ pd ∈ ds, '\n' ∉ pd.1 ∧ jsTrim pd.1 ≠ doneMarker ∧
      parseO pd.1 = some pd.2 ∧ parseG pd.1 = some pd.2 ∧ pd.2 ≠ []) :
    streamOpenAICompatFragments parseO
        (ds.map (fun pd => dataLineChunk pd.1) ++ dataLineChunk doneMarker :: extra)
      = ds.map Prod.snd
    ∧ streamGeminiFragments parseG (ds.map (fun pd => dataLineChunk pd.1))
      = ds.map Prod.snd := by
  constructor
  · unfold streamOpenAICompatFragments
    rw [runStream_dataChunks (handleOpenAILine parseO) ds _
      (fun pd hpd => ⟨(hds pd hpd).1,
        handleOpenAILine_valid parseO pd.1 pd.2 (hds pd hpd).2.1
          (hds pd hpd).2.2.1 (hds pd hpd).2.2.2.2⟩)]
    rw [runStream_doneChunk]
    simp
  · unfold streamGeminiFragments
    have key := runStream_dataChunks (handleGeminiLine parseG) ds []
      (fun pd hpd => ⟨(hds pd hpd).1,
        handleGeminiLine_valid parseG pd.1 pd.2
          (hds pd hpd).2.2.2.1 (hds pd hpd).2.2.2.2⟩)
    simpa [runStream] using key

/-- Closed witness for `sse_valid_deltas_yield_concatenation`: a two-line
stream whose payloads decode to the deltas `"He"` and `"llo"`. -/
theorem sse_valid_deltas_yield_concatenation_witness :
    streamOpenAICompatFragments
        (fun p => if p = ['p', '1'] then some ['H', 'e']
          else if p = ['p', '2'] then some ['l', 'l', 'o'] else none)
        ([dataLineChunk ['p', '1'], dataLineChunk ['p', '2']] ++
          dataLineChunk doneMarker :: [['j', 'u', 'n', 'k']])
      = [['H', 'e'], ['l', 'l', 'o']] := by
  have h := sse_valid_deltas_yield_concatenation
    (fun p => if p = ['p', '1'] then some ['H', 'e']
      else if p = ['p', '2'] then some ['l', 'l', 'o'] else none)
    (fun p => if p = ['p', '1'] then some ['H', 'e']
      else if p = ['p', '2'] then some ['l', 'l', 'o'] else none)
    [(['p', '1'], ['H', 'e']), (['p', '2'], ['l', 'l', 'o'])]
    [['j', 'u', 'n', 'k']]
    (by decide)
  exact h.1

/-- C6: a malformed-JSON `data: ` line interleaved among valid lines is
skipped: the adapter yields exactly what it would yield were the line
absent, and in particular still the concatenation of the valid deltas
(the embedding is a total function, so no exception reaches the caller:
the `try`/`catch` around `JSON.parse` maps a parse failure to `some none`,
the skip case of `handleOpenAILine`). -/
theorem sse_malformed_line_is_skipped
    (parse : List Char → Option (List Char))
    (ds1 ds2 : List (List Char × List Char)) (m : List Char)
    (hds : ∀ pd ∈ ds1 ++ ds2, '\n' ∉ pd.1 ∧ jsTrim pd.1 ≠ doneMarker ∧
      parse pd.1 = some pd.2 ∧ pd.2 ≠ [])
    (hm : '\n' ∉ m ∧ jsTrim m ≠ doneMarker ∧ parse m = none) :
    streamOpenAICompatFragments parse
        (ds1.map (fun pd => dataLineChunk pd.1) ++ dataLineChunk m ::
          (ds2.map (fun pd => dataLineChunk pd.1) ++ [dataLineChunk doneMarker]))
      = streamOpenAICompatFragments parse
        (ds1.map (fun pd => dataLineChunk pd.1) ++
          (ds2.map (fun pd => dataLineChunk pd.1) ++ [dataLineChunk doneMarker]))
    ∧ streamOpenAICompatFragments parse
        (ds1.map (fun pd => dataLineChunk pd.1) ++ dataLineChunk m ::
          (ds2.map (fun pd => dataLineChunk pd.1) ++ [dataLineChunk doneMarker]))
      = (ds1 ++ ds2).map Prod.snd := by
  have h1 : ∀ pd ∈ ds1, '\n' ∉ pd.1 ∧
      handleOpenAILine parse (dataMarker ++ pd.1) = some (some pd.2) := by
    intro pd hpd
    have h := hds pd (List.mem_append_left ds2 hpd)
    exact ⟨h.1, handleOpenAILine_valid parse pd.1 pd.2 h.2.1 h.2.2.1 h.2.2.2⟩
  have h2 : ∀ pd ∈ ds2, '\n' ∉ pd.1 ∧
      handleOpenAILine parse (dataMarker ++ pd.1) = some (some pd.2) := by
    intro pd hpd
    have h := hds pd (List.mem_append_right ds1 hpd)
    exact ⟨h.1, handleOpenAILine_valid parse pd.1 pd.2 h.2.1 h.2.2.1 h.2.2.2⟩
  have hwith : streamOpenAICompatFragments parse
      (ds1.map (fun pd => dataLineChunk pd.1) ++ dataLineChunk m ::
        (ds2.map (fun pd => dataLineChunk pd.1) ++ [dataLineChunk doneMarker]))
      = (ds1 ++ ds2).map Prod.snd := by
    unfold streamOpenAICompatFragments
    rw [runStream_dataChunks (handleOpenAILine parse) ds1 _ h1]
    rw [runStream_skipChunk (handleOpenAILine parse) m _ hm.1
      (handleOpenAILine_malformed parse m hm.2.1 hm.2.2)]
    rw [runStream_dataChunks (handleOpenAILine parse) ds2 _ h2]
    rw [runStream_doneChunk]
    simp
  have hwithout : streamOpenAICompatFragments parse
      (ds1.map (fun pd => dataLineChunk pd.1) ++
        (ds2.map (fun pd => dataLineChunk pd.1) ++ [dataLineChunk doneMarker]))
      = (ds1 ++ ds2).map Prod.snd := by
    unfold streamOpenAICompatFragments
    rw [runStream_dataChunks (handleOpenAILine parse) ds1 _ h1]
    rw [runStream_dataChunks (handleOpenAILine parse) ds2 _ h2]
    rw [runStream_doneChunk]
    simp
  exact ⟨hwith.trans hwithout.symm, hwith⟩

/-- Closed witness for `sse_malformed_line_is_skipped`: a malformed line
between two valid ones is invisible in the fragment output. -/
theorem sse_malformed_line_is_skipped_witness :
    streamOpenAICompatFragments
        (fun p => if p = ['p', '1'] then some ['H', 'e']
          else if p = ['p', '2'] then some ['l', 'l', 'o'] else none)
        ([dataLineChunk ['p', '1']] ++ dataLineChunk ['b', 'a', 'd'] ::
          ([dataLineChunk ['p', '2']] ++ [dataLineChunk doneMarker]))
      = [['H', 'e'], ['l', 'l', 'o']] := by
  have h := sse_malformed_line_is_skipped
    (fun p => if p = ['p', '1'] then some ['H', 'e']
      else if p = ['p', '2'] then some ['l', 'l', 'o'] else none)
    [(['p', '1'], ['H', 'e'])] [(['p', '2'], ['l', 'l', 'o'])]
    ['b', 'a', 'd'] (by decide) (by decide)
  exact h.2

/-! ## Section 2: quiz extraction (src/services/aiService.ts, generateQuiz)

`AiService.generateQuiz` (lines 197-276) fetches one response, cleans
markdown fences, parses JSON, requires a `questions` array and maps each
entry to a `QuizQuestion` with
`correctAnswer: q.options.indexOf(q.answer)`.  Both a JSON parse failure
and an exception inside the `try` block (for example `q.options` being
absent, so that `.indexOf` throws a `TypeError`) are caught and re-thrown
as the single extraction error
`"Could not generate a valid quiz from the conversation."`.
The post-parse processing is embedded here; `JSON.parse` is abstracted by
passing the already-parsed `questions` value (`none` = parse failure or
missing/non-array `questions`). -/

/-- One entry of the parsed `questions` array; `options = none` models a
missing or non-array `options` field (on which `.indexOf` throws). -/
structure RawQuizEntry where
  question : String
  options : Option (List String)
  answer : String
  explanation : String
deriving DecidableEq

/-- QuizQuestion of src/types (part_005): `correctAnswer` is an `Int`
because JavaScript `indexOf` returns `-1` when the element is absent. -/
structure QuizQuestion where
  id : String
  question : String
  options : List String
  correctAnswer : Int
  explanation : String
deriving DecidableEq

/-- StudySession of src/types (part_005), minus the `createdAt` date. -/
structure StudySession where
  id : String
  conversationId : String
  questions : List QuizQuestion
  currentQuestionIndex : Nat
  score : Nat
  totalQuestions : Nat
  isCompleted : Bool
deriving DecidableEq

/-- Modelled from the spec: `generateId` (src/utils/helpers.ts) is not in
the snapshot; every call site is embedded as a deterministic injective
id supply (§3 requires ids unique within a graph).  No theorem below
depends on the produced values, only at most on their distinctness, and
where distinctness of ids matters it is taken as an explicit hypothesis
on the output instead. -/
def genQuizQuestionId (i : Nat) : String := "quiz-question-" ++ toString i

/-- JavaScript `Array.prototype.indexOf`: index of the first occurrence,
`-1` when absent. -/
def jsIndexOf : List String → String → Int
  | [], _ => -1
  | x :: xs, a =>
    if x = a then 0
    else
      let r := jsIndexOf xs a
      if r = -1 then -1 else r + 1

/-- The `parsed.questions.map(...)` body of `generateQuiz` (aiService.ts
254-260); an entry whose `options` is not an array makes `.indexOf` throw,
which the surrounding `catch` turns into the extraction error. -/
def buildQuizQuestions (i : Nat) : List RawQuizEntry → Except String (List QuizQuestion)
  | [] => .ok []
  | q :: rest =>
    match q.options with
    | none => .error "Could not generate a valid quiz from the conversation."
    | some opts =>
      match buildQuizQuestions (i + 1) rest with
      | .error e => .error e
      | .ok qs =>
        let built : QuizQuestion :=
          { id := genQuizQuestionId i
            question := q.question
            options := opts
            correctAnswer := jsIndexOf opts q.answer
            explanation := q.explanation }
        .ok (built :: qs)

/-- Post-parse phase of `generateQuiz` (aiService.ts 248-275).
`parsedQuestions = none` models a JSON parse failure or a missing /
non-array `questions` field; both are re-thrown by the `catch` as the
same extraction error. -/
def generateQuizFromParsed (parsedQuestions : Option (List RawQuizEntry))
    (conversationId : String) : Except String StudySession :=
  match parsedQuestions with
  | none => .error "Could not generate a valid quiz from the conversation."
  | some entries =>
    match buildQuizQuestions 0 entries with
    | .error e => .error e
    | .ok questions =>
      .ok { id := "study-session-0"
            conversationId := conversationId
            questions := questions
            currentQuestionIndex := 0
            score := 0
            totalQuestions := questions.length
            isCompleted := false }

theorem jsIndexOf_nonneg_of_ne (opts : List String) (a : String)
    (h : jsIndexOf opts a ≠ -1) : 0 ≤ jsIndexOf opts a := by
  induction opts with
  | nil => simp [jsIndexOf] at h
  | cons x xs ih =>
    simp only [jsIndexOf] at h ⊢
    by_cases hx : x = a
    · simp [hx]
    · simp only [if_neg hx] at h ⊢
      by_cases hr : jsIndexOf xs a = -1
      · simp [hr] at h
      · have := ih hr
        simp only [if_neg hr]
        omega

theorem jsIndexOf_not_mem (opts : List String) (a : String) (h : a ∉ opts) :
    jsIndexOf opts a = -1 := by
  induction opts with
  | nil => rfl
  | cons x xs ih =>
    have hx : x ≠ a := fun hxa => h (hxa ▸ List.mem_cons_self x xs)
    have hxs : a ∉ xs := fun hm => h (List.mem_cons_of_mem x hm)
    simp [jsIndexOf, hx, ih hxs]

theorem jsIndexOf_mem (opts : List String) (a : String) (h : a ∈ opts) :
    jsIndexOf opts a = (opts.indexOf a : Int) := by
  induction opts with
  | nil => simp at h
  | cons x xs ih =>
    by_cases hx : x = a
    · subst hx
      simp [jsIndexOf, List.indexOf_cons_self]
    · have hmem : a ∈ xs := by
        rcases List.mem_cons.mp h with h | h
        · exact absurd h.symm hx
        · exact h
      have hr := ih hmem
      have hir : jsIndexOf xs a ≠ -1 := by
        rw [hr]; omega
      have hne : ¬ (x == a) = true := by simpa using hx
      simp only [jsIndexOf, if_neg hx, if_neg hir, hr,
        List.indexOf_cons, cond_eq_if, if_neg hne]
      push_cast
      ring

theorem buildQuizQuestions_ok (entries : List RawQuizEntry) (i : Nat)
    (h : ∀ q ∈ entries, q.options ≠ none) :
    ∃ qs, buildQuizQuestions i entries = .ok qs ∧
      qs.map (fun q => q.correctAnswer)
        = entries.map (fun q => jsIndexOf (q.options.getD []) q.answer) := by
  induction entries generalizing i with
  | nil => exact ⟨[], rfl, rfl⟩
  | cons q rest ih =>
    have hq := h q (List.mem_cons_self q rest)
    obtain ⟨opts, hopts⟩ := Option.ne_none_iff_exists'.mp hq
    obtain ⟨qs, hqs, hmap⟩ := ih (i + 1) (fun p hp => h p (List.mem_cons_of_mem q hp))
    refine ⟨QuizQuestion.mk (genQuizQuestionId i) q.question opts
      (jsIndexOf opts q.answer) q.explanation :: qs, ?_, ?_⟩
    · simp only [buildQuizQuestions, hopts, hqs]
    · simp [hopts, hmap]

/-- C1 (amended): `generateQuiz` sets each produced question has its
correct-answer index to `options.indexOf(answer)`: the index of the first
occurrence of the `answer` string in `options` when it occurs there, and
`-1` when it does not — in the latter case the question is still
returned and the call does NOT fail with an `ExtractionError` (only a
missing `questions` array, a JSON parse failure, or a missing `options`
array fails the extraction). -/
theorem quiz_correctAnswer_is_indexOf (entries : List RawQuizEntry) (convId : String)
    (h : ∀ q ∈ entries, q.options ≠ none) :
    (∃ s, generateQuizFromParsed (some entries) convId = .ok s ∧
      s.questions.map (fun q => q.correctAnswer)
        = entries.map (fun q => jsIndexOf (q.options.getD []) q.answer))
    ∧ (∀ opts : List String, ∀ a : String,
        (a ∈ opts → jsIndexOf opts a = (opts.indexOf a : Int) ∧ 0 ≤ jsIndexOf opts a)
        ∧ (a ∉ opts → jsIndexOf opts a = -1)) := by
  constructor
  · obtain ⟨qs, hqs, hmap⟩ := buildQuizQuestions_ok entries 0 h
    refine ⟨StudySession.mk "study-session-0" convId qs 0 0 qs.length false, ?_, hmap⟩
    simp only [generateQuizFromParsed, hqs]
  · intro opts a
    refine ⟨fun hm => ⟨jsIndexOf_mem opts a hm, ?_⟩, jsIndexOf_not_mem opts a⟩
    rw [jsIndexOf_mem opts a hm]
    positivity

/-- Closed witness for `quiz_correctAnswer_is_indexOf`: a parsed quiz
whose single question has options `["A","B","C","D"]` and answer `"C"`;
the hypothesis (every entry has an options array) holds and the produced
correct-answer index is `jsIndexOf ["A","B","C","D"] "C" = 2`. -/
theorem quiz_correctAnswer_is_indexOf_witness :
    (∀ q ∈ [RawQuizEntry.mk "Which letter?" (some ["A", "B", "C", "D"]) "C" "expl"],
      q.options ≠ none)
    ∧ (∃ s, generateQuizFromParsed
        (some [RawQuizEntry.mk "Which letter?" (some ["A", "B", "C", "D"]) "C" "expl"])
        "conv-w" = .ok s ∧
      s.questions.map (fun q => q.correctAnswer)
        = [RawQuizEntry.mk "Which letter?" (some ["A", "B", "C", "D"]) "C" "expl"].map
            (fun q => jsIndexOf (q.options.getD []) q.answer))
    ∧ jsIndexOf ["A", "B", "C", "D"] "C" = 2 :=
  ⟨by decide,
   (quiz_correctAnswer_is_indexOf
     [RawQuizEntry.mk "Which letter?" (some ["A", "B", "C", "D"]) "C" "expl"]
     "conv-w" (by decide)).1,
   by decide⟩

/-- C1 (counterexample): with options `["A","B","C","D"]` and answer
`"E"` (not among the options) `generateQuiz` does NOT fail with an
`ExtractionError`: it returns the question with `correctAnswer = -1`,
refuting the second half of the claim. -/
theorem quiz_absent_answer_returns_question :
    generateQuizFromParsed
        (some [RawQuizEntry.mk "Which letter?" (some ["A", "B", "C", "D"]) "E" "expl"])
        "conv-1"
      = .ok
        { id := "study-session-0"
          conversationId := "conv-1"
          questions := [{ id := "quiz-question-0"
                          question := "Which letter?"
                          options := ["A", "B", "C", "D"]
                          correctAnswer := -1
                          explanation := "expl" }]
          currentQuestionIndex := 0
          score := 0
          totalQuestions := 1
          isCompleted := false } := by
  rfl

/-! ## Section 3: stream orchestrator configuration checks
(src/services/aiService.ts, `AiService.generateStreamingResponse`,
lines 107-194)

The generator first switches on `settings.selectedModel`; in every branch
the credential check (`if (!key) throw ...`) precedes the `fetch` call,
and an unknown identifier reaches the `default` branch which throws
without fetching.  The pre-network phase is embedded as an `Except`
value: a network request is issued only when an `.ok` plan is produced,
so the number of outbound calls made before an error is zero by
construction of the control flow, mirrored one-to-one here. -/

/-- APISettings of src/types (part_005).  `selectedModel` is embedded as
an unconstrained string: the runtime value is loaded from persisted
storage, and the `default` switch branch of the source handles
identifiers outside the four known ones. -/
structure APISettings where
  googleApiKey : String
  zhipuApiKey : String
  mistralApiKey : String
  selectedModel : String
  selectedTutorMode : String
deriving DecidableEq

/-- Wire-protocol family of a vendor endpoint (§9 of the spec names the
same closed set). -/
inductive ProtocolKind where
  | openAICompat
  | gemini
deriving DecidableEq

/-- Everything `generateStreamingResponse` has decided by the moment it
calls `fetch`: which protocol, which endpoint, which credential, which
model identifier. -/
structure RequestPlan where
  protocol : ProtocolKind
  endpointHost : String
  apiKey : String
  model : String
deriving DecidableEq

/-- Pre-network phase of `generateStreamingResponse` (aiService.ts
113-193): the `switch` on the selected model and the credential checks
that precede every `fetch`. -/
def resolveStreamingRequest (s : APISettings) : Except String RequestPlan :=
  if s.selectedModel = "google" then
    if s.googleApiKey = "" then .error "Google API key not set"
    else .ok { protocol := .gemini
               endpointHost := "generativelanguage.googleapis.com"
               apiKey := s.googleApiKey
               model := "gemma-3-27b-it" }
  else if s.selectedModel = "zhipu" then
    if s.zhipuApiKey = "" then .error "ZhipuAI API key not set"
    else .ok { protocol := .openAICompat
               endpointHost := "open.bigmodel.cn"
               apiKey := s.zhipuApiKey
               model := "glm-4.5-flash" }
  else if s.selectedModel = "mistral-small" then
    if s.mistralApiKey = "" then .error "Mistral API key not set"
    else .ok { protocol := .openAICompat
               endpointHost := "api.mistral.ai"
               apiKey := s.mistralApiKey
               model := "mistral-small-latest" }
  else if s.selectedModel = "mistral-codestral" then
    if s.mistralApiKey = "" then .error "Mistral API key not set for Codestral"
    else .ok { protocol := .openAICompat
               endpointHost := "api.mistral.ai"
               apiKey := s.mistralApiKey
               model := "codestral-latest" }
  else .error "Invalid model selected or API key not set."

/-- The credential consulted for the selected vendor. -/
def selectedCredential (s : APISettings) : String :=
  if s.selectedModel = "google" then s.googleApiKey
  else if s.selectedModel = "zhipu" then s.zhipuApiKey
  else if s.selectedModel = "mistral-small" then s.mistralApiKey
  else if s.selectedModel = "mistral-codestral" then s.mistralApiKey
  else ""

/-- Whether the selected vendor identifier matches a known adapter. -/
def knownVendor (s : APISettings) : Bool :=
  s.selectedModel == "google" || s.selectedModel == "zhipu" ||
    s.selectedModel == "mistral-small" || s.selectedModel == "mistral-codestral"

/-- Number of outbound network requests issued by one call: `fetch` runs
exactly when the pre-network phase produced an `.ok` plan. -/
def networkCallCount (s : APISettings) : Nat :=
  match resolveStreamingRequest s with
  | .ok _ => 1
  | .error _ => 0

/-- C7: when the credential for the currently selected vendor is absent
(the empty string, the only falsy string), or the selected vendor
identifier matches no known adapter, `generateStreamingResponse` fails
with a configuration error before any network request is issued: the
resolution phase returns an error and the outbound call count is zero. -/
theorem missing_credential_fails_before_network (s : APISettings)
    (h : knownVendor s = false ∨ selectedCredential s = "") :
    (∃ msg, resolveStreamingRequest s = Except.error msg) ∧ networkCallCount s = 0 := by
  have hres : ∃ msg, resolveStreamingRequest s = Except.error msg := by
    by_cases hg : s.selectedModel = "google"
    · have hk : s.googleApiKey = "" := by
        rcases h with h | h
        · simp [knownVendor, hg] at h
        · simpa [selectedCredential, hg] using h
      exact ⟨"Google API key not set", by simp [resolveStreamingRequest, hg, hk]⟩
    · by_cases hz : s.selectedModel = "zhipu"
      · have hk : s.zhipuApiKey = "" := by
          rcases h with h | h
          · simp [knownVendor, hz] at h
          · simpa [selectedCredential, hg, hz] using h
        exact ⟨"ZhipuAI API key not set", by simp [resolveStreamingRequest, hg, hz, hk]⟩
      · by_cases hm1 : s.selectedModel = "mistral-small"
        · have hk : s.mistralApiKey = "" := by
            rcases h with h | h
            · simp [knownVendor, hm1] at h
            · simpa [selectedCredential, hg, hz, hm1] using h
          exact ⟨"Mistral API key not set",
            by simp [resolveStreamingRequest, hg, hz, hm1, hk]⟩
        · by_cases hm2 : s.selectedModel = "mistral-codestral"
          · have hk : s.mistralApiKey = "" := by
              rcases h with h | h
              · simp [knownVendor, hm2] at h
              · simpa [selectedCredential, hg, hz, hm1, hm2] using h
            exact ⟨"Mistral API key not set for Codestral",
              by simp [resolveStreamingRequest, hg, hz, hm1, hm2, hk]⟩
          · exact ⟨"Invalid model selected or API key not set.",
              by simp [resolveStreamingRequest, hg, hz, hm1, hm2]⟩
  obtain ⟨msg, hmsg⟩ := hres
  exact ⟨⟨msg, hmsg⟩, by simp [networkCallCount, hmsg]⟩

/-- Closed witness for `missing_credential_fails_before_network`:
vendor `google` selected with an empty Google key. -/
theorem missing_credential_fails_before_network_witness :
    (selectedCredential
        { googleApiKey := "", zhipuApiKey := "k1", mistralApiKey := "k2",
          selectedModel := "google", selectedTutorMode := "standard" } = "")
    ∧ ((∃ msg, resolveStreamingRequest
        { googleApiKey := "", zhipuApiKey := "k1", mistralApiKey := "k2",
          selectedModel := "google", selectedTutorMode := "standard" }
          = Except.error msg)
      ∧ networkCallCount
        { googleApiKey := "", zhipuApiKey := "k1", mistralApiKey := "k2",
          selectedModel := "google", selectedTutorMode := "standard" } = 0) :=
  ⟨by decide,
   missing_credential_fails_before_network
     { googleApiKey := "", zhipuApiKey := "k1", mistralApiKey := "k2",
       selectedModel := "google", selectedTutorMode := "standard" }
     (Or.inr (by decide))⟩

/-! ## Section 4: flowchart generation
(src/services/flowchartGenerator.ts, the file marked REFINED VERSION,
which is the current module at its real path; the unnamed snapshot
`part_000` is an older copy of the same module and is noted where the two
differ)

The raw value produced by `JSON.parse` on the cleaned model response is
embedded structurally: absent / falsy string fields are the empty
string, absent objects are `none`.  Node and edge `type`/`id` fields are
strings at this point — the validator coerces them. -/

/-- Message role of src/types (part_005). -/
inductive Role where
  | user
  | assistant
deriving DecidableEq

/-- Message of src/types (part_005), reduced to the fields the flowchart
and quiz pipelines read. -/
structure Message where
  role : Role
  content : String
deriving DecidableEq

/-- Conversation of src/types (part_005), reduced to the fields read. -/
structure Conversation where
  id : String
  title : String
  messages : List Message
deriving DecidableEq

/-- NodeType of src/types/flowchart: the closed set used by
`validTypes` in `validateAndFixFlowchart`. -/
inductive NodeType where
  | start
  | process
  | decision
  | «end»
  | topic
  | concept
deriving DecidableEq

/-- A canvas position; JavaScript numbers are embedded as integers (all
constants in the module are integral). -/
structure Position where
  x : Int
  y : Int
deriving DecidableEq

/-- FlowchartNode of src/types/flowchart. -/
structure FlowchartNode where
  id : String
  type : NodeType
  label : String
  description : Option String
  position : Position
deriving DecidableEq

/-- FlowchartEdge of src/types/flowchart. -/
structure FlowchartEdge where
  id : String
  source : String
  target : String
  label : Option String
deriving DecidableEq

/-- Flowchart of src/types/flowchart, minus the two `Date` fields. -/
structure Flowchart where
  id : String
  title : String
  description : Option String
  nodes : List FlowchartNode
  edges : List FlowchartEdge
  sourceConversationId : String
deriving DecidableEq

/-- Raw position object inside the parsed JSON (`node.position?.x ?? 450`
reads through two levels of absence). -/
structure RawPosition where
  x : Option Int
  y : Option Int
deriving DecidableEq

/-- Raw node object inside the parsed JSON; `id`/`label` use `""` for a
missing or falsy field (`node.id || generateId()`), `type` is an
arbitrary string. -/
structure RawNode where
  id : String
  type : String
  label : String
  description : Option String
  position : Option RawPosition
deriving DecidableEq

/-- Raw edge object inside the parsed JSON. -/
structure RawEdge where
  id : String
  source : String
  target : String
  label : String
deriving DecidableEq

/-- Raw flowchart object inside the parsed JSON; `nodes = none` models a
missing or non-array `nodes` field (`!data.nodes || !Array.isArray`),
likewise for `edges`. -/
structure RawFlowchart where
  title : String
  description : Option String
  nodes : Option (List RawNode)
  edges : Option (List RawEdge)
deriving DecidableEq

/-- AnalyzedContent of `analyzeConversation` (flowchartGenerator.ts
156-181), reduced to the fields the pipeline reads afterwards.  When the
title is falsy and there is no first message, JavaScript evaluates
`undefined` plus the dots to the truthy string `"undefined..."`. -/
structure AnalyzedContent where
  mainTopic : String
  topics : List String
deriving DecidableEq

/-- Embedding of `analyzeConversation` (flowchartGenerator.ts 156-181). -/
def analyzeConversation (c : Conversation) : AnalyzedContent :=
  let mainTopic :=
    if c.title ≠ "" then c.title
    else
      match c.messages.head? with
      | some m => m.content.take 50 ++ "..."
      | none => "undefined..."
  let topics :=
    ((c.messages.filter (fun m => m.role = Role.user ∧ 20 < m.content.length)).map
      (fun m => (m.content.take 30).trim)).take 5
  { mainTopic := mainTopic, topics := topics }

/-- Fresh ids for the fallback flowchart (see `genQuizQuestionId` for the
modelling of the missing `generateId` helper). -/
def fbStartId : String := "fallback-start"

def fbNodeId (i : Nat) : String := "fallback-node-" ++ toString i

def fbEdgeId (i : Nat) : String := "fallback-edge-" ++ toString i

def fbEndId : String := "fallback-end"

def fbEndEdgeId : String := "fallback-edge-end"

def fbFlowchartId : String := "fallback-flowchart"

/-- The node pushed for one key message of the fallback loop
(flowchartGenerator.ts 206-232): type by role, label truncated at 25
characters, alternating horizontal offset. -/
def fbNode (i : Nat) (y : Int) (m : Message) : FlowchartNode :=
  { id := fbNodeId i
    type := if m.role = Role.user then NodeType.topic else NodeType.concept
    label := m.content.take 25 ++ (if 25 < m.content.length then "..." else "")
    description := none
    position := { x := 450 + (if i % 2 = 0 then -150 else 150), y := y } }

/-- The edge pushed for one key message, from the previous node. -/
def fbEdge (i : Nat) (prevId : String) (m : Message) : FlowchartEdge :=
  { id := fbEdgeId i
    source := prevId
    target := fbNodeId i
    label := some (if m.role = Role.user then "asks" else "explains") }

/-- The `keyMessages.forEach` loop of `createFallbackFlowchart`
(flowchartGenerator.ts 206-232): builds one node and one incoming edge
per message, advancing `currentY` by 140; returns the built nodes, the
built edges, the final `prevId` and the final `currentY`. -/
def fallbackLoop (prevId : String) (y : Int) (i : Nat) :
    List Message → List FlowchartNode × List FlowchartEdge × String × Int
  | [] => ([], [], prevId, y)
  | m :: ms =>
    let r := fallbackLoop (fbNodeId i) (y + 140) (i + 1) ms
    (fbNode i y m :: r.1, fbEdge i prevId m :: r.2.1, r.2.2.1, r.2.2.2)

/-- The start node of the fallback flowchart (`createFallbackFlowchart`,
flowchartGenerator.ts 184-259, refined version). -/
def fbStartNode (analyzed : AnalyzedContent) : FlowchartNode :=
  { id := fbStartId
    type := NodeType.start
    label := analyzed.mainTopic.take 30
    description := none
    position := { x := 450, y := 80 } }

/-- The summary end node of the fallback flowchart, 50 below the final
`currentY`. -/
def fbEndNode (finalY : Int) : FlowchartNode :=
  { id := fbEndId
    type := NodeType.«end»
    label := "Summary"
    description := none
    position := { x := 450, y := finalY + 50 } }

/-- Embedding of `createFallbackFlowchart` (flowchartGenerator.ts 184-259, refined
version): start node at y 80, one node per key message from y 220 in
steps of 140, end node 50 below the final `currentY`, edges forming a
linear chain. -/
def createFallbackFlowchart (conv : Conversation) (analyzed : AnalyzedContent) :
    Flowchart :=
  let r := fallbackLoop fbStartId 220 0 (conv.messages.take 8)
  let endEdge : FlowchartEdge :=
    { id := fbEndEdgeId, source := r.2.2.1, target := fbEndId, label := none }
  { id := fbFlowchartId
    title := if analyzed.mainTopic.take 50 ≠ "" then analyzed.mainTopic.take 50
      else "Learning Flowchart"
    description := some "Visual representation of the learning conversation"
    nodes := fbStartNode analyzed :: r.1 ++ [fbEndNode r.2.2.2]
    edges := r.2.1 ++ [endEdge]
    sourceConversationId := conv.id }

/-- The `validTypes.includes(node.type) ? node.type : concept` coercion
(flowchartGenerator.ts 289-290). -/
def parseNodeType (s : String) : NodeType :=
  if s = "start" then NodeType.start
  else if s = "process" then NodeType.process
  else if s = "decision" then NodeType.decision
  else if s = "end" then NodeType.«end»
  else if s = "topic" then NodeType.topic
  else if s = "concept" then NodeType.concept
  else NodeType.concept

/-- Mutation setting the first node type to start (flowchartGenerator.ts 276-279). -/
def forceFirstStart : List RawNode → List RawNode
  | [] => []
  | n :: rest => { n with type := "start" } :: rest

/-- Mutation setting the last node type to end
(flowchartGenerator.ts 282-285). -/
def forceLastEnd : List RawNode → List RawNode
  | [] => []
  | [n] => [{ n with type := "end" }]
  | n :: m :: rest => n :: forceLastEnd (m :: rest)

/-- The two coercion steps in order: force a `start` on the first node if
none exists, then force an `end` on the last node if none exists (the
second check observes the result of the first). -/
def ensureStartEnd (ns : List RawNode) : List RawNode :=
  let ns1 := if ns.any (fun n => n.type == "start") then ns else forceFirstStart ns
  if ns1.any (fun n => n.type == "end") then ns1 else forceLastEnd ns1

/-- Clamping `Math.max(lo, Math.min(hi, v))`. -/
def clampInt (lo hi v : Int) : Int := max lo (min hi v)

/-- Fresh ids for the validator (see `genQuizQuestionId`). -/
def genNodeId (i : Nat) : String := "generated-node-" ++ toString i

def genEdgeId (i : Nat) : String := "generated-edge-" ++ toString i

def genChainEdgeId (i : Nat) : String := "chain-edge-" ++ toString i

def genFlowchartId : String := "generated-flowchart"

/-- Map with the element index, mirroring the `(x, index) => ...`
callbacks of `Array.prototype.map`. -/
def mapWithIndex (f : Nat → α → β) : Nat → List α → List β
  | _, [] => []
  | i, a :: rest => f i a :: mapWithIndex f (i + 1) rest

/-- The per-node body of `data.nodes.map(...)` (flowchartGenerator.ts
288-307, refined version): type coercion, default position
`(450, 80 + index * 140)`, clamping into `x ∈ [100, 800]`,
`y ∈ [50, 800]`, label defaulting and truncation to 40 characters. -/
def processNode (i : Nat) (n : RawNode) : FlowchartNode :=
  { id := if n.id = "" then genNodeId i else n.id
    type := parseNodeType n.type
    label := (if n.label = "" then "Node " ++ toString (i + 1) else n.label).take 40
    description := n.description
    position :=
      { x := clampInt 100 800 ((n.position.bind (fun p => p.x)).getD 450)
        y := clampInt 50 800 ((n.position.bind (fun p => p.y)).getD (80 + (i : Int) * 140)) } }

/-- All nodes processed (`data.nodes.map`). -/
def processNodes (ns : List RawNode) : List FlowchartNode := mapWithIndex processNode 0 ns

/-- Ordering of nodes by vertical position used for
`[...nodes].sort((a, b) => a.position.y - b.position.y)`. -/
def nodeLe (a b : FlowchartNode) : Prop := a.position.y ≤ b.position.y

instance : DecidableRel nodeLe := fun a b =>
  inferInstanceAs (Decidable (a.position.y ≤ b.position.y))

instance : IsTotal FlowchartNode nodeLe :=
  ⟨fun a b => Int.le_total a.position.y b.position.y⟩

instance : IsTrans FlowchartNode nodeLe :=
  ⟨fun _ _ _ hab hbc => le_trans hab hbc⟩

/-- Embedding of `[...nodes].sort((a, b) => a.position.y - b.position.y)`
(flowchartGenerator.ts 310).  `Array.prototype.sort` is required to be
stable, and a stable sort with a fixed total preorder is extensionally
unique, so it is embedded as insertion sort by `nodeLe`. -/
def sortNodesByY (ns : List FlowchartNode) : List FlowchartNode :=
  List.insertionSort nodeLe ns

/-- The id set `new Set(nodes.map(n => n.id))`. -/
def nodeIdsOf (nodes : List FlowchartNode) : List String := nodes.map (fun n => n.id)

/-- The y lookup `new Map(nodes.map(n => [n.id, n.position.y]))`: a
JavaScript `Map` built from an entry list keeps the LAST entry for a
duplicated key, so the lookup scans the reversed node list. -/
def lastYOf (nodes : List FlowchartNode) (i : String) : Option Int :=
  (nodes.reverse.find? (fun n => n.id == i)).map (fun n => n.position.y)

/-- The edge filter (flowchartGenerator.ts 317-333, refined version):
requires truthy endpoint ids present in the id set, no self-loop, and
`targetY >= sourceY` relative to the y map (with `|| 0` defaulting). -/
def edgeKept (nodes : List FlowchartNode) (e : RawEdge) : Bool :=
  if e.source = "" ∨ e.target = "" ∨ e.source ∉ nodeIdsOf nodes ∨ e.target ∉ nodeIdsOf nodes then
    false
  else if e.source = e.target then false
  else decide ((lastYOf nodes e.source).getD 0 ≤ (lastYOf nodes e.target).getD 0)

/-- The per-edge body of the `.map` after the filter (flowchartGenerator.ts
334-339). -/
def processEdge (i : Nat) (e : RawEdge) : FlowchartEdge :=
  { id := if e.id = "" then genEdgeId i else e.id
    source := e.source
    target := e.target
    label := if e.label = "" then none else some (e.label.take 30) }

/-- The surviving, processed edges. -/
def filteredEdges (nodes : List FlowchartNode) (rawEdges : List RawEdge) :
    List FlowchartEdge :=
  mapWithIndex processEdge 0 (rawEdges.filter (edgeKept nodes))

/-- The connectivity repair (flowchartGenerator.ts 342-350): one edge per
consecutive pair of the y-sorted node list. -/
def chainEdges (k : Nat) : List FlowchartNode → List FlowchartEdge
  | [] => []
  | [_] => []
  | a :: b :: rest =>
    { id := genChainEdgeId k, source := a.id, target := b.id, label := none } ::
      chainEdges (k + 1) (b :: rest)

/-- The non-fallback branch of `validateAndFixFlowchart` for a non-empty
raw node array (flowchartGenerator.ts 271-361, refined version). -/
def validateMain (data : RawFlowchart) (conv : Conversation) (ns : List RawNode) :
    Flowchart :=
  let analyzed := analyzeConversation conv
  let rawEdges := data.edges.getD []
  let nodes := processNodes (ensureStartEnd ns)
  let sortedNodes := sortNodesByY nodes
  let edges := filteredEdges nodes rawEdges
  let edges := if edges.length = 0 ∧ 1 < nodes.length then chainEdges 0 sortedNodes else edges
  { id := genFlowchartId
    title := (if data.title ≠ "" then data.title else analyzed.mainTopic).take 100
    description := data.description.map (fun d => d.take 200)
    nodes := nodes
    edges := edges
    sourceConversationId := conv.id }

/-- Embedding of `validateAndFixFlowchart` (flowchartGenerator.ts 262-362, refined
version): a missing, non-array or empty `nodes` field falls back to the
deterministic conversation-derived flowchart, otherwise the nodes are
coerced/clamped and the edges filtered or synthesized. -/
def validateAndFixFlowchart (data : RawFlowchart) (conv : Conversation) : Flowchart :=
  match data.nodes with
  | none => createFallbackFlowchart conv (analyzeConversation conv)
  | some rawNodes =>
    if rawNodes.length = 0 then createFallbackFlowchart conv (analyzeConversation conv)
    else validateMain data conv rawNodes

/-- Embedding of `generateFlowchartFromConversation` (flowchartGenerator.ts 364-422,
refined version).  `aiResponse` abstracts everything inside the `try`
block up to and including `JSON.parse` on the cleaned response text
(the streamed AI response, the fence stripping and the brace slicing):
`.ok` carries the parsed raw object, `.error` stands for any exception
raised inside the `try` (network failure, parse failure, and so on),
which the `catch` converts into the fallback flowchart.  The guard on
the message count precedes the `try` and therefore escapes it. -/
def generateFlowchartFromConversation (conv : Conversation)
    (aiResponse : Except Unit RawFlowchart) : Except String Flowchart :=
  if conv.messages.length < 2 then
    .error "Conversation must have at least 2 messages to generate a flowchart."
  else
    match aiResponse with
    | .error _ => .ok (createFallbackFlowchart conv (analyzeConversation conv))
    | .ok parsed => .ok (validateAndFixFlowchart parsed conv)

/-! Supporting lemmas for the flowchart validator. -/

theorem mapWithIndex_length (f : Nat → α → β) (k : Nat) (l : List α) :
    (mapWithIndex f k l).length = l.length := by
  induction l generalizing k with
  | nil => rfl
  | cons a rest ih => simp [mapWithIndex, ih]

theorem mem_mapWithIndex {f : Nat → α → β} {k : Nat} {l : List α} {b : β}
    (h : b ∈ mapWithIndex f k l) : ∃ i a, a ∈ l ∧ b = f i a := by
  induction l generalizing k with
  | nil => simp [mapWithIndex] at h
  | cons a rest ih =>
    simp only [mapWithIndex, List.mem_cons] at h
    rcases h with h | h
    · exact ⟨k, a, List.mem_cons_self a rest, h⟩
    · obtain ⟨i, x, hx, hb⟩ := ih h
      exact ⟨i, x, List.mem_cons_of_mem a hx, hb⟩

theorem mem_mapWithIndex_of_mem {f : Nat → α → β} {l : List α} {a : α}
    (h : a ∈ l) (k : Nat) : ∃ i, f i a ∈ mapWithIndex f k l := by
  induction l generalizing k with
  | nil => simp at h
  | cons x rest ih =>
    rcases List.mem_cons.mp h with h | h
    · exact ⟨k, by simp [mapWithIndex, h]⟩
    · obtain ⟨i, hi⟩ := ih h (k + 1)
      exact ⟨i, by simp [mapWithIndex, hi]⟩

theorem forceFirstStart_length (l : List RawNode) :
    (forceFirstStart l).length = l.length := by
  cases l <;> rfl

theorem forceFirstStart_ne_nil (l : List RawNode) (h : l ≠ []) :
    forceFirstStart l ≠ [] := by
  cases l with
  | nil => exact absurd rfl h
  | cons n rest => simp [forceFirstStart]

theorem forceLastEnd_length (l : List RawNode) :
    (forceLastEnd l).length = l.length := by
  induction l with
  | nil => rfl
  | cons n rest ih =>
    cases rest with
    | nil => rfl
    | cons m t => simpa [forceLastEnd] using ih

theorem ensureStartEnd_length (ns : List RawNode) :
    (ensureStartEnd ns).length = ns.length := by
  simp only [ensureStartEnd]
  split
  · split
    · rfl
    · exact forceLastEnd_length ns
  · split
    · exact forceFirstStart_length ns
    · rw [forceLastEnd_length, forceFirstStart_length]

theorem exists_end_forceLastEnd (l : List RawNode) (h : l ≠ []) :
    ∃ x ∈ forceLastEnd l, x.type = "end" := by
  induction l with
  | nil => exact absurd rfl h
  | cons n rest ih =>
    cases rest with
    | nil => exact ⟨_, List.mem_singleton.mpr rfl, rfl⟩
    | cons m t =>
      obtain ⟨x, hx, hty⟩ := ih (by simp)
      exact ⟨x, List.mem_cons_of_mem n hx, hty⟩

theorem exists_end_endStage (l : List RawNode) (h : l ≠ []) :
    ∃ x ∈ (if l.any (fun n => n.type == "end") then l else forceLastEnd l),
      x.type = "end" := by
  split
  · next he =>
    obtain ⟨x, hx, hbeq⟩ := List.any_eq_true.mp he
    exact ⟨x, hx, by simpa using hbeq⟩
  · exact exists_end_forceLastEnd l h

theorem ensureStartEnd_has_end (ns : List RawNode) (h : ns ≠ []) :
    ∃ x ∈ ensureStartEnd ns, x.type = "end" := by
  simp only [ensureStartEnd]
  apply exists_end_endStage
  split
  · exact h
  · exact forceFirstStart_ne_nil ns h

theorem forceLastEnd_get?_of_lt (l : List RawNode) (i : Nat) (h : i + 1 < l.length) :
    (forceLastEnd l).get? i = l.get? i := by
  induction l generalizing i with
  | nil => simp at h
  | cons n rest ih =>
    cases rest with
    | nil => simp at h
    | cons m t =>
      cases i with
      | zero => rfl
      | succ j =>
        have hj : j + 1 < (m :: t).length := by
          simpa using Nat.lt_of_succ_lt_succ h
        show (forceLastEnd (m :: t)).get? j = (m :: t).get? j
        exact ih j hj

theorem ensureStartEnd_has_start (ns : List RawNode) (hlen : 2 ≤ ns.length)
    (hcond : ns.any (fun n => n.type == "end") = true ∨
      ns.any (fun n => n.type == "start") = false ∨
      ∃ i rn, ns.get? i = some rn ∧ rn.type = "start" ∧ i + 1 < ns.length) :
    ∃ x ∈ ensureStartEnd ns, x.type = "start" := by
  simp only [ensureStartEnd]
  by_cases hs : ns.any (fun n => n.type == "start") = true
  · rw [if_pos hs]
    by_cases he : ns.any (fun n => n.type == "end") = true
    · rw [if_pos he]
      obtain ⟨x, hx, hbeq⟩ := List.any_eq_true.mp hs
      exact ⟨x, hx, by simpa using hbeq⟩
    · rw [if_neg he]
      rcases hcond with hc | hc | hc
      · exact absurd hc he
      · rw [hs] at hc; cases hc
      · obtain ⟨i, rn, hget, hty, hlt⟩ := hc
        have hkeep := forceLastEnd_get?_of_lt ns i hlt
        rw [hget] at hkeep
        exact ⟨rn, List.get?_mem hkeep, hty⟩
  · rw [if_neg hs]
    obtain ⟨n, rest, rfl⟩ : ∃ n rest, ns = n :: rest := by
      cases ns with
      | nil => simp at hlen
      | cons n rest => exact ⟨n, rest, rfl⟩
    obtain ⟨m, t, rfl⟩ : ∃ m t, rest = m :: t := by
      cases rest with
      | nil => simp at hlen
      | cons m t => exact ⟨m, t, rfl⟩
    show ∃ x ∈ (if ({ n with type := "start" } :: m :: t : List RawNode).any
        (fun n => n.type == "end") then ({ n with type := "start" } :: m :: t)
      else forceLastEnd ({ n with type := "start" } :: m :: t)), x.type = "start"
    split
    · exact ⟨{ n with type := "start" }, List.mem_cons_self _ _, rfl⟩
    · have hkeep := forceLastEnd_get?_of_lt ({ n with type := "start" } :: m :: t) 0
        (by simp)
      exact ⟨{ n with type := "start" }, List.get?_mem hkeep, rfl⟩

theorem processNodes_exists_type (l : List RawNode) (t : NodeType)
    (h : ∃ x ∈ l, parseNodeType x.type = t) :
    ∃ n ∈ processNodes l, n.type = t := by
  obtain ⟨x, hx, hxt⟩ := h
  obtain ⟨i, hi⟩ := mem_mapWithIndex_of_mem (f := processNode) hx 0
  exact ⟨processNode i x, hi, hxt⟩

theorem validate_eq_main (data : RawFlowchart) (conv : Conversation)
    (ns : List RawNode) (hn : data.nodes = some ns) (hne : ns ≠ []) :
    validateAndFixFlowchart data conv = validateMain data conv ns := by
  simp only [validateAndFixFlowchart, hn]
  rw [if_neg (by simpa [List.length_eq_zero] using hne)]

theorem validateMain_nodes (data : RawFlowchart) (conv : Conversation)
    (ns : List RawNode) :
    (validateMain data conv ns).nodes = processNodes (ensureStartEnd ns) := rfl

theorem validateMain_edges (data : RawFlowchart) (conv : Conversation)
    (ns : List RawNode) :
    (validateMain data conv ns).edges =
      if (filteredEdges (processNodes (ensureStartEnd ns)) (data.edges.getD [])).length = 0
          ∧ 1 < (processNodes (ensureStartEnd ns)).length then
        chainEdges 0 (sortNodesByY (processNodes (ensureStartEnd ns)))
      else filteredEdges (processNodes (ensureStartEnd ns)) (data.edges.getD []) := rfl

/-! Concrete fixtures for the closed theorems. -/

/-- An empty conversation (only title); the validator touches the
conversation only on the fallback path. -/
def convFix0 : Conversation := { id := "c0", title := "T", messages := [] }

/-- A conversation with one message. -/
def convFix1 : Conversation :=
  { id := "c1", title := "T", messages := [{ role := Role.user, content := "hi" }] }

/-- A conversation with two messages. -/
def convFix2 : Conversation :=
  { id := "c2", title := "T",
    messages := [{ role := Role.user, content := "hi" },
                 { role := Role.assistant, content := "hello" }] }

/-- A conversation with four messages. -/
def convFix4 : Conversation :=
  { id := "c4", title := "T",
    messages := [{ role := Role.user, content := "q1" },
                 { role := Role.assistant, content := "a1" },
                 { role := Role.user, content := "q2" },
                 { role := Role.assistant, content := "a2" }] }

/-- C2 (amended): for every conversation with at least two messages the
flowchart pipeline returns a flowchart and never propagates an error,
whatever the AI response / parse outcome is — any failure inside the
`try` block lands on the deterministic fallback graph.  (Conversations
with fewer than two messages are rejected with a thrown error BEFORE the
`try`, which is what the counterexample exhibits.) -/
theorem flowchart_pipeline_never_errors (conv : Conversation)
    (resp : Except Unit RawFlowchart) (h : 2 ≤ conv.messages.length) :
    ∃ f, generateFlowchartFromConversation conv resp = Except.ok f := by
  unfold generateFlowchartFromConversation
  rw [if_neg (by omega)]
  cases resp with
  | error e => exact ⟨_, rfl⟩
  | ok parsed => exact ⟨_, rfl⟩

/-- Closed witness for `flowchart_pipeline_never_errors`: a two-message
conversation with a failing AI call still yields a flowchart. -/
theorem flowchart_pipeline_never_errors_witness :
    2 ≤ convFix2.messages.length ∧
    ∃ f, generateFlowchartFromConversation convFix2 (Except.error ()) = Except.ok f :=
  ⟨by decide, flowchart_pipeline_never_errors convFix2 (Except.error ()) (by decide)⟩

/-- C2 (counterexample): a conversation with a single message makes
`generateFlowchartFromConversation` throw (`Conversation must have at
least 2 messages...`) instead of returning a fallback flowchart, so the
pipeline does propagate an error for some input conversations. -/
theorem flowchart_pipeline_short_conversation_errors :
    generateFlowchartFromConversation convFix1 (Except.error ())
      = Except.error "Conversation must have at least 2 messages to generate a flowchart." := by
  rfl

/-- Raw input for the start/end counterexample: the only `start` node is
the last one and no `end` node exists. -/
def rawStartLast : RawFlowchart :=
  { title := "T", description := none,
    nodes := some
      [{ id := "a", type := "concept", label := "A", description := none, position := none },
       { id := "b", type := "start", label := "B", description := none, position := none }],
    edges := some [] }

/-- C3 (counterexample): on a raw object whose only `start` node is the
last node and which has no `end` node, the end-coercion overwrites that
`start`: the validated output is `[concept, end]` and contains NO node
of type `start`, refuting the claimed invariant. -/
theorem flowchart_start_overwritten_cex :
    ((validateAndFixFlowchart rawStartLast convFix0).nodes.map (fun n => n.type))
      = [NodeType.concept, NodeType.«end»]
    ∧ ¬ ∃ n ∈ (validateAndFixFlowchart rawStartLast convFix0).nodes,
        n.type = NodeType.start := by
  decide

/-- C3 (amended): for a raw object with a non-empty node array, the
validator first forces the first node to `start` when no `start` exists,
then forces the last node to `end` when no `end` exists (in that order,
the second check observing the first coercion).  Consequently the
validated output always contains at least one `end` node; it contains at
least one `start` node whenever the array has at least two nodes and it
is not the case that every `start` sits at the last position while no
`end` node exists (in that corner case, shown by the counterexample, the
end-coercion overwrites the only `start`; likewise a single-node array
always ends as just an `end` node). -/
theorem flowchart_start_end_coercion (data : RawFlowchart) (conv : Conversation)
    (ns : List RawNode) (hn : data.nodes = some ns) (hne : ns ≠ []) :
    (∃ n ∈ (validateAndFixFlowchart data conv).nodes, n.type = NodeType.«end»)
    ∧ ((2 ≤ ns.length ∧
        (ns.any (fun n => n.type == "end") = true ∨
         ns.any (fun n => n.type == "start") = false ∨
         ∃ i rn, ns.get? i = some rn ∧ rn.type = "start" ∧ i + 1 < ns.length)) →
       ∃ n ∈ (validateAndFixFlowchart data conv).nodes, n.type = NodeType.start) := by
  rw [validate_eq_main data conv ns hn hne, validateMain_nodes]
  constructor
  · apply processNodes_exists_type
    obtain ⟨x, hx, hty⟩ := ensureStartEnd_has_end ns hne
    exact ⟨x, hx, by rw [hty]; rfl⟩
  · rintro ⟨hlen, hcond⟩
    apply processNodes_exists_type
    obtain ⟨x, hx, hty⟩ := ensureStartEnd_has_start ns hlen hcond
    exact ⟨x, hx, by rw [hty]; rfl⟩

/-- Raw input for the start/end witness: explicit `start` first, `end`
last. -/
def rawStartEnd : RawFlowchart :=
  { title := "T", description := none,
    nodes := some
      [{ id := "a", type := "start", label := "A", description := none, position := none },
       { id := "b", type := "end", label := "B", description := none, position := none }],
    edges := some [] }

/-- Closed witness for `flowchart_start_end_coercion`. -/
theorem flowchart_start_end_coercion_witness :
    (rawStartEnd.nodes = some
      [{ id := "a", type := "start", label := "A", description := none, position := none },
       { id := "b", type := "end", label := "B", description := none, position := none }]) ∧
    ((∃ n ∈ (validateAndFixFlowchart rawStartEnd convFix0).nodes, n.type = NodeType.«end»)
     ∧ ∃ n ∈ (validateAndFixFlowchart rawStartEnd convFix0).nodes,
         n.type = NodeType.start) :=
  ⟨rfl,
   (flowchart_start_end_coercion rawStartEnd convFix0 _ rfl (by decide)).1,
   (flowchart_start_end_coercion rawStartEnd convFix0 _ rfl (by decide)).2
     ⟨by decide, Or.inl (by decide)⟩⟩

theorem clampInt_lower (lo hi v : Int) : lo ≤ clampInt lo hi v :=
  le_max_left lo (min hi v)

theorem clampInt_upper (lo hi v : Int) (h : lo ≤ hi) : clampInt lo hi v ≤ hi :=
  max_le h (min_le_left hi v)

/-- Raw input whose node array is empty, sending the validator to the
fallback path. -/
def rawEmptyNodes : RawFlowchart :=
  { title := "T", description := none, nodes := some [], edges := some [] }

/-- C9 (counterexample): for a raw object with an empty node array and a
four-message conversation the validator returns the fallback flowchart,
whose end node sits at y = 830 — outside the y ≤ 800 canvas bound the
clamping enforces — so not EVERY raw flowchart object yields in-bounds
positions. -/
theorem flowchart_fallback_position_out_of_bounds_cex :
    ((validateAndFixFlowchart rawEmptyNodes convFix4).nodes.map
        (fun n => n.position.y)) = [80, 220, 360, 500, 640, 830]
    ∧ ∃ n ∈ (validateAndFixFlowchart rawEmptyNodes convFix4).nodes,
        ¬ n.position.y ≤ 800 := by
  decide

/-- C9 (amended): for every raw flowchart object with a NON-EMPTY node
array (the path that runs the clamping; the empty-array fallback path of
the counterexample is exempt), every node of the validated output lies
inside the canvas rectangle x ∈ [100, 800], y ∈ [50, 800], and no node
is rejected: the output has exactly as many nodes as the input. -/
theorem flowchart_positions_clamped (data : RawFlowchart) (conv : Conversation)
    (ns : List RawNode) (hn : data.nodes = some ns) (hne : ns ≠ []) :
    (validateAndFixFlowchart data conv).nodes.length = ns.length
    ∧ ∀ n ∈ (validateAndFixFlowchart data conv).nodes,
        100 ≤ n.position.x ∧ n.position.x ≤ 800
        ∧ 50 ≤ n.position.y ∧ n.position.y ≤ 800 := by
  rw [validate_eq_main data conv ns hn hne, validateMain_nodes]
  constructor
  · rw [processNodes, mapWithIndex_length, ensureStartEnd_length]
  · intro n hn
    obtain ⟨i, a, _, rfl⟩ := mem_mapWithIndex hn
    refine ⟨clampInt_lower _ _ _, clampInt_upper _ _ _ (by omega),
      clampInt_lower _ _ _, clampInt_upper _ _ _ (by omega)⟩

/-- Raw input with one node far out of bounds (x = -500, y = 10000). -/
def rawOutOfBounds : RawFlowchart :=
  { title := "T", description := none,
    nodes := some
      [{ id := "a", type := "start", label := "A", description := none,
         position := some { x := some (-500), y := some 10000 } }],
    edges := some [] }

/-- Closed witness for `flowchart_positions_clamped`: the out-of-range
position (-500, 10000) is clamped into the bounds (to (100, 800)) and
the node is kept. -/
theorem flowchart_positions_clamped_witness :
    (rawOutOfBounds.nodes = some
      [{ id := "a", type := "start", label := "A", description := none,
         position := some { x := some (-500), y := some 10000 } }]) ∧
    ((validateAndFixFlowchart rawOutOfBounds convFix0).nodes.length = 1
     ∧ ∀ n ∈ (validateAndFixFlowchart rawOutOfBounds convFix0).nodes,
        100 ≤ n.position.x ∧ n.position.x ≤ 800
        ∧ 50 ≤ n.position.y ∧ n.position.y ≤ 800) ∧
    ((validateAndFixFlowchart rawOutOfBounds convFix0).nodes.map
      (fun n => (n.position.x, n.position.y))) = [((100 : Int), (800 : Int))] :=
  ⟨rfl, flowchart_positions_clamped rawOutOfBounds convFix0 _ rfl (by decide),
   by decide⟩

/-- Consecutive pairs of a list. -/
def consecPairs (l : List α) : List (α × α) := l.zip l.tail

theorem chainEdges_pairs (l : List FlowchartNode) (k : Nat) :
    (chainEdges k l).map (fun e => (e.source, e.target))
      = consecPairs (l.map (fun n => n.id)) := by
  induction l generalizing k with
  | nil => rfl
  | cons a rest ih =>
    cases rest with
    | nil => rfl
    | cons b t =>
      simp only [chainEdges, List.map_cons, consecPairs, List.zip_cons_cons, List.tail]
      exact congrArg _ (ih (k + 1))

theorem chainEdges_length (l : List FlowchartNode) (k : Nat) :
    (chainEdges k l).length = l.length - 1 := by
  induction l generalizing k with
  | nil => rfl
  | cons a rest ih =>
    cases rest with
    | nil => rfl
    | cons b t => simpa [chainEdges] using ih (k + 1)

theorem sortNodesByY_length (l : List FlowchartNode) :
    (sortNodesByY l).length = l.length :=
  (List.perm_insertionSort nodeLe l).length_eq

theorem processNodes_length (l : List RawNode) :
    (processNodes l).length = l.length := by
  rw [processNodes, mapWithIndex_length]

/-- Raw input with two nodes whose array order disagrees with their
vertical order, and no edges. -/
def rawYswap : RawFlowchart :=
  { title := "T", description := none,
    nodes := some
      [{ id := "a", type := "concept", label := "A", description := none,
         position := some { x := some 450, y := some 500 } },
       { id := "b", type := "concept", label := "B", description := none,
         position := some { x := some 450, y := some 100 } }],
    edges := some [] }

/-- C4 (counterexample): with node array [a (y=500), b (y=100)] and zero
edges, the synthesized chain is b → a — the ascending-y order — and NOT
the array order a → b the claim states. -/
theorem flowchart_chain_not_array_order_cex :
    ((validateAndFixFlowchart rawYswap convFix0).edges.map
        (fun e => (e.source, e.target))) = [("b", "a")]
    ∧ ((validateAndFixFlowchart rawYswap convFix0).edges.map
        (fun e => (e.source, e.target))) ≠ [("a", "b")] := by
  decide

/-- C4 (amended): for a raw object with more than one node for which zero
edges survive validation, the refined validator synthesizes a linear
chain of exactly nodeCount - 1 sequential edges connecting the processed
nodes in ascending y-position order (the stable y-sort of the node
array; the legacy copy in `part_000` connected them in plain array
order), so the output graph is never totally disconnected. -/
theorem flowchart_chain_synthesis (data : RawFlowchart) (conv : Conversation)
    (ns : List RawNode) (hn : data.nodes = some ns) (hlen : 1 < ns.length)
    (hzero : filteredEdges (processNodes (ensureStartEnd ns)) (data.edges.getD []) = []) :
    (validateAndFixFlowchart data conv).edges.length = ns.length - 1
    ∧ (validateAndFixFlowchart data conv).edges.map (fun e => (e.source, e.target))
      = consecPairs ((sortNodesByY (processNodes (ensureStartEnd ns))).map
          (fun n => n.id)) := by
  have hne : ns ≠ [] := by
    intro h; rw [h] at hlen; simp at hlen
  rw [validate_eq_main data conv ns hn hne, validateMain_edges]
  rw [if_pos ⟨by rw [hzero]; rfl,
    by rw [processNodes_length, ensureStartEnd_length]; exact hlen⟩]
  constructor
  · rw [chainEdges_length, sortNodesByY_length, processNodes_length,
      ensureStartEnd_length]
  · exact chainEdges_pairs _ 0

/-- Raw input with three nodes in ascending y order and no edges. -/
def rawChain3 : RawFlowchart :=
  { title := "T", description := none,
    nodes := some
      [{ id := "n1", type := "start", label := "A", description := none,
         position := some { x := some 450, y := some 100 } },
       { id := "n2", type := "concept", label := "B", description := none,
         position := some { x := some 450, y := some 200 } },
       { id := "n3", type := "end", label := "C", description := none,
         position := some { x := some 450, y := some 300 } }],
    edges := some [] }

/-- Closed witness for `flowchart_chain_synthesis`: three nodes, zero
surviving edges, chain n1 → n2 → n3 of length 2. -/
theorem flowchart_chain_synthesis_witness :
    (rawChain3.nodes.getD []).length = 3
    ∧ filteredEdges (processNodes (ensureStartEnd (rawChain3.nodes.getD [])))
        (rawChain3.edges.getD []) = []
    ∧ (validateAndFixFlowchart rawChain3 convFix0).edges.length = 3 - 1
    ∧ (validateAndFixFlowchart rawChain3 convFix0).edges.map
        (fun e => (e.source, e.target)) = [("n1", "n2"), ("n2", "n3")] :=
  ⟨by decide, by decide,
   (flowchart_chain_synthesis rawChain3 convFix0 _ rfl (by decide) (by decide)).1,
   by decide⟩

theorem pairwise_get?_adj {R : α → α → Prop} {l : List α}
    (hp : List.Pairwise R l) {i : Nat} {a b : α}
    (ha : l.get? i = some a) (hb : l.get? (i + 1) = some b) : R a b := by
  obtain ⟨hia, hga⟩ := List.get?_eq_some.mp ha
  obtain ⟨hib, hgb⟩ := List.get?_eq_some.mp hb
  have := List.pairwise_iff_get.mp hp ⟨i, hia⟩ ⟨i + 1, hib⟩ (by simp)
  rw [hga, hgb] at this
  exact this

theorem nodup_map_get?_adj_ne {f : α → β} {l : List α}
    (hn : (l.map f).Nodup) {i : Nat} {a b : α}
    (ha : l.get? i = some a) (hb : l.get? (i + 1) = some b) : f a ≠ f b := by
  intro heq
  have hma : (l.map f).get? i = some (f a) := by rw [List.get?_map, ha]; rfl
  have hmb : (l.map f).get? (i + 1) = some (f b) := by rw [List.get?_map, hb]; rfl
  have hlen : i < (l.map f).length := (List.get?_eq_some.mp hma).1
  have : i = i + 1 := by
    apply List.get?_inj hlen hn
    rw [hma, hmb, heq]
  omega

theorem find?_eq_some_unique {p : α → Bool} {l : List α} {s : α}
    (hmem : s ∈ l) (hp : p s = true) (huniq : ∀ x ∈ l, p x = true → x = s) :
    l.find? p = some s := by
  induction l with
  | nil => simp at hmem
  | cons x rest ih =>
    by_cases hx : p x = true
    · rw [List.find?_cons_of_pos _ hx]
      rw [huniq x (List.mem_cons_self x rest) hx]
    · rw [List.find?_cons_of_neg _ hx]
      have hsx : s ≠ x := by
        intro h; rw [h] at hp; exact hx hp
      have hmem2 : s ∈ rest := by
        rcases List.mem_cons.mp hmem with h | h
        · exact absurd h hsx
        · exact h
      exact ih hmem2 (fun z hz hpz => huniq z (List.mem_cons_of_mem x hz) hpz)

theorem lastYOf_of_nodup (nodes : List FlowchartNode)
    (hnodup : (nodes.map (fun n => n.id)).Nodup)
    (s : FlowchartNode) (hs : s ∈ nodes) :
    lastYOf nodes s.id = some s.position.y := by
  unfold lastYOf
  rw [find?_eq_some_unique (List.mem_reverse.mpr hs) (by simp)
    (fun x hx hpx => List.inj_on_of_nodup_map hnodup (List.mem_reverse.mp hx) hs
      (by simpa using hpx))]
  rfl

theorem chainEdges_adjacent (l : List FlowchartNode) (k : Nat) :
    ∀ e ∈ chainEdges k l, ∃ j a b, l.get? j = some a ∧ l.get? (j + 1) = some b
      ∧ a.id = e.source ∧ b.id = e.target := by
  induction l generalizing k with
  | nil => intro e he; simp [chainEdges] at he
  | cons a rest ih =>
    cases rest with
    | nil => intro e he; simp [chainEdges] at he
    | cons b t =>
      intro e he
      rcases List.mem_cons.mp he with he | he
      · exact ⟨0, a, b, rfl, rfl, by rw [he], by rw [he]⟩
      · obtain ⟨j, x, z, hx, hz, hxs, hzt⟩ := ih (k + 1) e he
        exact ⟨j + 1, x, z, hx, hz, hxs, hzt⟩

theorem edgeKept_spec (nodes : List FlowchartNode) (re : RawEdge)
    (h : edgeKept nodes re = true) :
    re.source ∈ nodeIdsOf nodes ∧ re.target ∈ nodeIdsOf nodes
    ∧ re.source ≠ re.target
    ∧ (lastYOf nodes re.source).getD 0 ≤ (lastYOf nodes re.target).getD 0 := by
  unfold edgeKept at h
  split at h
  · cases h
  · next hc1 =>
    push_neg at hc1
    split at h
    · cases h
    · next hc2 =>
      exact ⟨hc1.2.2.1, hc1.2.2.2, hc2, of_decide_eq_true h⟩

theorem filteredEdges_spec (nodes : List FlowchartNode) (rawEdges : List RawEdge) :
    ∀ e ∈ filteredEdges nodes rawEdges,
      ∃ re, re ∈ rawEdges ∧ edgeKept nodes re = true
        ∧ e.source = re.source ∧ e.target = re.target := by
  intro e he
  obtain ⟨i, re, hre, rfl⟩ := mem_mapWithIndex he
  obtain ⟨hmem, hkept⟩ := List.mem_filter.mp hre
  exact ⟨re, hmem, hkept, rfl, rfl⟩

theorem validateMain_edge_cases (data : RawFlowchart) (conv : Conversation)
    (ns : List RawNode) :
    ∀ e ∈ (validateMain data conv ns).edges,
      (∃ re, re ∈ data.edges.getD []
        ∧ edgeKept (processNodes (ensureStartEnd ns)) re = true
        ∧ e.source = re.source ∧ e.target = re.target)
      ∨ (∃ j a b,
          (sortNodesByY (processNodes (ensureStartEnd ns))).get? j = some a
          ∧ (sortNodesByY (processNodes (ensureStartEnd ns))).get? (j + 1) = some b
          ∧ a.id = e.source ∧ b.id = e.target) := by
  intro e he
  rw [validateMain_edges] at he
  split at he
  · exact Or.inr (chainEdges_adjacent _ 0 e he)
  · exact Or.inl (filteredEdges_spec _ _ e he)

theorem validate_fallback_or_main (data : RawFlowchart) (conv : Conversation) :
    validateAndFixFlowchart data conv
      = createFallbackFlowchart conv (analyzeConversation conv)
    ∨ ∃ ns, data.nodes = some ns ∧ ns ≠ []
        ∧ validateAndFixFlowchart data conv = validateMain data conv ns := by
  cases hn : data.nodes with
  | none => left; simp [validateAndFixFlowchart, hn]
  | some ns =>
    by_cases hne : ns = []
    · left; simp [validateAndFixFlowchart, hn, hne]
    · exact Or.inr ⟨ns, rfl, hne, validate_eq_main data conv ns hn hne⟩

theorem fallbackLoop_invariant (ms : List Message) :
    ∀ (pn : FlowchartNode) (y : Int) (i : Nat), pn.position.y ≤ y →
      (∀ e ∈ (fallbackLoop pn.id y i ms).2.1,
        ∃ j a b, (pn :: (fallbackLoop pn.id y i ms).1).get? j = some a
          ∧ (pn :: (fallbackLoop pn.id y i ms).1).get? (j + 1) = some b
          ∧ a.id = e.source ∧ b.id = e.target)
      ∧ List.Pairwise nodeLe (pn :: (fallbackLoop pn.id y i ms).1)
      ∧ (∀ n ∈ pn :: (fallbackLoop pn.id y i ms).1,
          n.position.y ≤ (fallbackLoop pn.id y i ms).2.2.2)
      ∧ (∃ ln, (pn :: (fallbackLoop pn.id y i ms).1).getLast? = some ln
          ∧ ln.id = (fallbackLoop pn.id y i ms).2.2.1) := by
  induction ms with
  | nil =>
    intro pn y i hpy
    refine ⟨?_, ?_, ?_, ?_⟩
    · intro e he; simp [fallbackLoop] at he
    · exact List.pairwise_singleton nodeLe pn
    · intro n hn
      rcases List.mem_singleton.mp hn with rfl
      exact hpy
    · exact ⟨pn, rfl, rfl⟩
  | cons m ms ih =>
    intro pn y i hpy
    have hnodey : (fbNode i y m).position.y = y := rfl
    have hih := ih (fbNode i y m) (y + 140) (i + 1) (by rw [hnodey]; omega)
    obtain ⟨ihA, ihB, ihC, ihD⟩ := hih
    refine ⟨?_, ?_, ?_, ?_⟩
    · intro e he
      rcases List.mem_cons.mp he with rfl | he
      · exact ⟨0, pn, fbNode i y m, rfl, rfl, rfl, rfl⟩
      · obtain ⟨j, a, b, ha, hb, hsa, htb⟩ := ihA e he
        exact ⟨j + 1, a, b, ha, hb, hsa, htb⟩
    · refine List.pairwise_cons.mpr ⟨?_, ihB⟩
      intro x hx
      rcases List.mem_cons.mp hx with rfl | hx
      · show pn.position.y ≤ (fbNode i y m).position.y
        rw [hnodey]; exact hpy
      · have h1 : nodeLe (fbNode i y m) x :=
          (List.pairwise_cons.mp ihB).1 x hx
        show pn.position.y ≤ x.position.y
        calc pn.position.y ≤ y := hpy
          _ = (fbNode i y m).position.y := hnodey.symm
          _ ≤ x.position.y := h1
    · intro n hn
      rcases List.mem_cons.mp hn with rfl | hn
      · have hn0 := ihC (fbNode i y m) (List.mem_cons_self _ _)
        calc n.position.y ≤ y := hpy
          _ = (fbNode i y m).position.y := hnodey.symm
          _ ≤ _ := hn0
      · exact ihC n hn
    · obtain ⟨ln, hlast, hlnid⟩ := ihD
      refine ⟨ln, ?_, hlnid⟩
      show (pn :: fbNode i y m ::
        (fallbackLoop (fbNode i y m).id (y + 140) (i + 1) ms).1).getLast? = some ln
      rw [List.getLast?_cons_cons]
      exact hlast

theorem fallback_spec (conv : Conversation) (an : AnalyzedContent) :
    (∀ e ∈ (createFallbackFlowchart conv an).edges,
      ∃ j a b, (createFallbackFlowchart conv an).nodes.get? j = some a
        ∧ (createFallbackFlowchart conv an).nodes.get? (j + 1) = some b
        ∧ a.id = e.source ∧ b.id = e.target)
    ∧ List.Pairwise nodeLe (createFallbackFlowchart conv an).nodes := by
  have hstarty : (fbStartNode an).position.y ≤ 220 := by
    show (80 : Int) ≤ 220
    omega
  have inv := fallbackLoop_invariant (conv.messages.take 8) (fbStartNode an) 220 0 hstarty
  obtain ⟨invA, invB, invC, invD⟩ := inv
  have hid : (fbStartNode an).id = fbStartId := rfl
  rw [hid] at invA invB invC invD
  have hnodes : (createFallbackFlowchart conv an).nodes =
      (fbStartNode an :: (fallbackLoop fbStartId 220 0 (conv.messages.take 8)).1)
        ++ [fbEndNode (fallbackLoop fbStartId 220 0 (conv.messages.take 8)).2.2.2] := rfl
  have hedges : (createFallbackFlowchart conv an).edges =
      (fallbackLoop fbStartId 220 0 (conv.messages.take 8)).2.1
        ++ [{ id := fbEndEdgeId,
              source := (fallbackLoop fbStartId 220 0 (conv.messages.take 8)).2.2.1,
              target := fbEndId, label := none }] := rfl
  constructor
  · intro e he
    rw [hedges] at he
    rw [hnodes]
    rcases List.mem_append.mp he with he | he
    · obtain ⟨j, a, b, ha, hb, hsa, htb⟩ := invA e he
      have hjb : j + 1 <
          (fbStartNode an :: (fallbackLoop fbStartId 220 0 (conv.messages.take 8)).1).length :=
        (List.get?_eq_some.mp hb).1
      refine ⟨j, a, b, ?_, ?_, hsa, htb⟩
      · rw [List.get?_append (by omega)]; exact ha
      · rw [List.get?_append hjb]; exact hb
    · rcases List.mem_singleton.mp he with rfl
      obtain ⟨ln, hlast, hlnid⟩ := invD
      have hget := hlast
      rw [List.getLast?_eq_get?] at hget
      have hlenpos : 0 <
          (fbStartNode an :: (fallbackLoop fbStartId 220 0 (conv.messages.take 8)).1).length := by
        simp
      refine ⟨(fbStartNode an :: (fallbackLoop fbStartId 220 0 (conv.messages.take 8)).1).length - 1,
        ln, fbEndNode (fallbackLoop fbStartId 220 0 (conv.messages.take 8)).2.2.2,
        ?_, ?_, hlnid, rfl⟩
      · rw [List.get?_append (by omega)]; exact hget
      · have hsum :
            (fbStartNode an :: (fallbackLoop fbStartId 220 0 (conv.messages.take 8)).1).length - 1 + 1
            = (fbStartNode an :: (fallbackLoop fbStartId 220 0 (conv.messages.take 8)).1).length := by
          omega
        rw [hsum, List.get?_concat_length]
  · rw [hnodes]
    refine List.pairwise_append.mpr ⟨invB, List.pairwise_singleton _ _, ?_⟩
    intro a ha b hb
    rcases List.mem_singleton.mp hb with rfl
    have hay := invC a ha
    show a.position.y ≤ (fallbackLoop fbStartId 220 0 (conv.messages.take 8)).2.2.2 + 50
    omega

/-- Raw input with two nodes sharing the id "a" and no edges. -/
def rawDupIds : RawFlowchart :=
  { title := "T", description := none,
    nodes := some
      [{ id := "a", type := "concept", label := "A", description := none, position := none },
       { id := "a", type := "concept", label := "B", description := none, position := none }],
    edges := some [] }

/-- C8 (counterexample): with two nodes sharing one id and zero edges,
the synthesized chain edge has source = target = "a" — a self-loop in
the validated output, refuting the claim for raw objects with duplicated
node ids (the chain synthesis bypasses the self-loop filter). -/
theorem flowchart_selfloop_from_duplicate_ids_cex :
    ((validateAndFixFlowchart rawDupIds convFix0).edges.map
        (fun e => (e.source, e.target))) = [("a", "a")]
    ∧ ∃ e ∈ (validateAndFixFlowchart rawDupIds convFix0).edges,
        e.source = e.target := by
  decide

/-- C8 (amended): whenever the node ids of the validated output are pairwise
distinct (the generic case; the spec requires ids unique within a
graph), every edge of the validated output references two existing node
ids and has source distinct from target — edges with unknown endpoints
and self-loops are dropped by the filter, and the synthesized
chain/fallback edges connect distinct consecutive nodes.  Without the
distinctness proviso the synthesized chain can emit a self-loop, as the
counterexample shows. -/
theorem flowchart_edge_endpoints_valid (data : RawFlowchart) (conv : Conversation)
    (hnodup : ((validateAndFixFlowchart data conv).nodes.map (fun n => n.id)).Nodup) :
    ∀ e ∈ (validateAndFixFlowchart data conv).edges,
      e.source ∈ (validateAndFixFlowchart data conv).nodes.map (fun n => n.id)
      ∧ e.target ∈ (validateAndFixFlowchart data conv).nodes.map (fun n => n.id)
      ∧ e.source ≠ e.target := by
  rcases validate_fallback_or_main data conv with hv | ⟨ns, hn, hne, hv⟩
  · rw [hv] at hnodup ⊢
    intro e he
    obtain ⟨j, a, b, ha, hb, hsa, htb⟩ := (fallback_spec conv _).1 e he
    refine ⟨?_, ?_, ?_⟩
    · rw [← hsa]; exact List.mem_map_of_mem _ (List.get?_mem ha)
    · rw [← htb]; exact List.mem_map_of_mem _ (List.get?_mem hb)
    · rw [← hsa, ← htb]; exact nodup_map_get?_adj_ne hnodup ha hb
  · rw [hv] at hnodup ⊢
    intro e he
    rcases validateMain_edge_cases data conv ns e he with
      ⟨re, _, hkept, hs, ht⟩ | ⟨j, a, b, ha, hb, hsa, htb⟩
    · obtain ⟨hsm, htm, hnest, _⟩ := edgeKept_spec _ re hkept
      exact ⟨by rw [hs]; exact hsm, by rw [ht]; exact htm,
        by rw [hs, ht]; exact hnest⟩
    · have hperm : (sortNodesByY (processNodes (ensureStartEnd ns))).Perm
          (processNodes (ensureStartEnd ns)) :=
        List.perm_insertionSort nodeLe (processNodes (ensureStartEnd ns))
      have hnodup2 : ((sortNodesByY (processNodes (ensureStartEnd ns))).map
          (fun n => n.id)).Nodup := ((hperm.map _).nodup_iff).mpr hnodup
      refine ⟨?_, ?_, ?_⟩
      · rw [← hsa]
        exact List.mem_map_of_mem _ (hperm.mem_iff.mp (List.get?_mem ha))
      · rw [← htb]
        exact List.mem_map_of_mem _ (hperm.mem_iff.mp (List.get?_mem hb))
      · rw [← hsa, ← htb]
        exact nodup_map_get?_adj_ne hnodup2 ha hb

/-- Raw input with two distinct nodes, one forward edge, one self-loop
edge and one dangling edge. -/
def rawMixedEdges : RawFlowchart :=
  { title := "T", description := none,
    nodes := some
      [{ id := "n1", type := "start", label := "A", description := none,
         position := some { x := some 450, y := some 100 } },
       { id := "n2", type := "end", label := "B", description := none,
         position := some { x := some 450, y := some 200 } }],
    edges := some
      [{ id := "e1", source := "n1", target := "n2", label := "" },
       { id := "e2", source := "n1", target := "n1", label := "" },
       { id := "e3", source := "n1", target := "ghost", label := "" }] }

/-- Closed witness for `flowchart_edge_endpoints_valid`: distinct output
ids, and the surviving edge set is exactly the forward edge n1 → n2. -/
theorem flowchart_edge_endpoints_valid_witness :
    ((validateAndFixFlowchart rawMixedEdges convFix0).nodes.map
      (fun n => n.id)).Nodup
    ∧ (∀ e ∈ (validateAndFixFlowchart rawMixedEdges convFix0).edges,
        e.source ∈ (validateAndFixFlowchart rawMixedEdges convFix0).nodes.map
          (fun n => n.id)
        ∧ e.target ∈ (validateAndFixFlowchart rawMixedEdges convFix0).nodes.map
            (fun n => n.id)
        ∧ e.source ≠ e.target)
    ∧ ((validateAndFixFlowchart rawMixedEdges convFix0).edges.map
        (fun e => (e.source, e.target))) = [("n1", "n2")] :=
  ⟨by decide,
   flowchart_edge_endpoints_valid rawMixedEdges convFix0 (by decide),
   by decide⟩

/-- C10: in the refined validator, whenever the node ids of the validated
output are pairwise distinct (so that "the node an edge endpoint refers to"
is well defined), every surviving edge — filtered, synthesized chain or
fallback — is forward or horizontal: any node carrying the target id
sits at a y-coordinate greater than or equal to that of any node
carrying the source id.  Raw edges pointing from a lower node to a
higher node fail the `targetY >= sourceY` filter and are dropped — a
step the validation list of the spec does not mention. -/
theorem flowchart_edges_forward_only (data : RawFlowchart) (conv : Conversation)
    (hnodup : ((validateAndFixFlowchart data conv).nodes.map (fun n => n.id)).Nodup) :
    ∀ e ∈ (validateAndFixFlowchart data conv).edges,
      ∀ s ∈ (validateAndFixFlowchart data conv).nodes,
        ∀ t ∈ (validateAndFixFlowchart data conv).nodes,
          s.id = e.source → t.id = e.target → s.position.y ≤ t.position.y := by
  rcases validate_fallback_or_main data conv with hv | ⟨ns, hn, hne, hv⟩
  · rw [hv] at hnodup ⊢
    intro e he s hsmem t htmem hsid htid
    obtain ⟨j, a, b, ha, hb, hsa, htb⟩ := (fallback_spec conv _).1 e he
    have hsed : s = a :=
      List.inj_on_of_nodup_map hnodup hsmem (List.get?_mem ha) (by rw [hsid, ← hsa])
    have hted : t = b :=
      List.inj_on_of_nodup_map hnodup htmem (List.get?_mem hb) (by rw [htid, ← htb])
    have hrel := pairwise_get?_adj (fallback_spec conv _).2 ha hb
    rw [hsed, hted]
    exact hrel
  · rw [hv] at hnodup ⊢
    intro e he s hsmem t htmem hsid htid
    rcases validateMain_edge_cases data conv ns e he with
      ⟨re, _, hkept, hs, ht⟩ | ⟨j, a, b, ha, hb, hsa, htb⟩
    · obtain ⟨_, _, _, hle⟩ := edgeKept_spec _ re hkept
      have hys : lastYOf (processNodes (ensureStartEnd ns)) s.id
          = some s.position.y := lastYOf_of_nodup _ hnodup s hsmem
      have hyt : lastYOf (processNodes (ensureStartEnd ns)) t.id
          = some t.position.y := lastYOf_of_nodup _ hnodup t htmem
      have h1 : re.source = s.id := by rw [← hs, ← hsid]
      have h2 : re.target = t.id := by rw [← ht, ← htid]
      rw [h1, h2, hys, hyt] at hle
      simpa using hle
    · have hsorted := List.sorted_insertionSort nodeLe (processNodes (ensureStartEnd ns))
      have hperm : (sortNodesByY (processNodes (ensureStartEnd ns))).Perm
          (processNodes (ensureStartEnd ns)) :=
        List.perm_insertionSort nodeLe (processNodes (ensureStartEnd ns))
      have hsed : s = a :=
        List.inj_on_of_nodup_map hnodup hsmem (hperm.mem_iff.mp (List.get?_mem ha))
          (by rw [hsid, ← hsa])
      have hted : t = b :=
        List.inj_on_of_nodup_map hnodup htmem (hperm.mem_iff.mp (List.get?_mem hb))
          (by rw [htid, ← htb])
      have hrel : nodeLe a b := pairwise_get?_adj hsorted ha hb
      rw [hsed, hted]
      exact hrel

/-- Raw input with two distinct nodes, one forward edge and one backward
edge (from the lower node up to the higher one). -/
def rawBackwardEdge : RawFlowchart :=
  { title := "T", description := none,
    nodes := some
      [{ id := "n1", type := "start", label := "A", description := none,
         position := some { x := some 450, y := some 100 } },
       { id := "n2", type := "end", label := "B", description := none,
         position := some { x := some 450, y := some 200 } }],
    edges := some
      [{ id := "e1", source := "n1", target := "n2", label := "" },
       { id := "e2", source := "n2", target := "n1", label := "" }] }

/-- Closed witness for `flowchart_edges_forward_only`: the backward edge
n2 → n1 is silently dropped and the surviving edge respects the y
ordering. -/
theorem flowchart_edges_forward_only_witness :
    ((validateAndFixFlowchart rawBackwardEdge convFix0).nodes.map
      (fun n => n.id)).Nodup
    ∧ (∀ e ∈ (validateAndFixFlowchart rawBackwardEdge convFix0).edges,
        ∀ s ∈ (validateAndFixFlowchart rawBackwardEdge convFix0).nodes,
          ∀ t ∈ (validateAndFixFlowchart rawBackwardEdge convFix0).nodes,
            s.id = e.source → t.id = e.target → s.position.y ≤ t.position.y)
    ∧ ((validateAndFixFlowchart rawBackwardEdge convFix0).edges.map
        (fun e => (e.source, e.target))) = [("n1", "n2")] :=
  ⟨by decide,
   flowchart_edges_forward_only rawBackwardEdge convFix0 (by decide),
   by decide⟩
